import Mathlib

/-
Verification of the Leaffliction mask-extraction pipeline
(src/Transformation.py) against its design specification.

The image-processing primitives delegated to external vision libraries
(plantcv / OpenCV) are not part of this repository; where a claim depends
on them they are modelled from the specification's description of their
contracts (grayscale projection is a pointwise channel map, Otsu
thresholding with the documented all-background policy on uniform input,
hole filling by border-reachability of background components under
8-connectivity).  The control flow of `gaussian_blur`, `remove_black`,
`roi`, `process_image` and `main` is translated directly from the source.
-/

namespace Leaffliction

/-- A pixel of a 3-channel image (channel order abstracted; the source's
colour tuples are modelled positionally). -/
structure Pixel where
  r : Nat
  g : Nat
  b : Nat

/-- A 3-channel image: explicit height/width and a row-major pixel grid,
modelled as a function on coordinates (values outside the grid are
irrelevant to the pipeline). -/
structure Img where
  h : Nat
  w : Nat
  data : Nat → Nat → Pixel

/-- A single-channel intensity buffer (grayscale), same shape as `Img`. -/
structure Gray where
  h : Nat
  w : Nat
  data : Nat → Nat → Nat

/-- A binary mask: `true` is FOREGROUND (255 in storage), `false` is
BACKGROUND (0 in storage). -/
structure Mask where
  h : Nat
  w : Nat
  data : Nat → Nat → Bool

/-- Errors surfaced by the pipeline.  `invalidChannel` models the
`ValueError("Invalid channel specified.")` raised by `gaussian_blur`
(the spec's `InvalidChannelError`); `unsupportedTransformation` models the
`ValueError("Unsupported transformation selected.")` of `process_image`. -/
inductive Err where
  | invalidChannel
  | unsupportedTransformation
deriving DecidableEq

/-- Clamp an integer into the 8-bit range. -/
def clamp255 (x : Int) : Nat := (max 0 (min x 255)).toNat

/-- Modelled from the spec: `pcv.rgb2gray_lab` is not in the repository;
the spec (4.1) specifies only that projection extracts the named channel
pointwise.  The Lab channels are modelled as pointwise maps: `l` as the
usual luma, `a` and `b` as clamped opponent-colour combinations. -/
def labPix (channel : String) (p : Pixel) : Nat :=
  if channel == "l" then (299 * p.r + 587 * p.g + 114 * p.b) / 1000
  else if channel == "a" then clamp255 (128 + ((p.r : Int) - p.g) / 2)
  else clamp255 (128 + (((p.r : Int) + p.g) / 2 - p.b) / 2)

/-- Modelled from the spec: `pcv.rgb2gray_hsv` is not in the repository;
the HSV channels are modelled pointwise with the standard integer
hue/saturation/value formulas. -/
def hsvPix (channel : String) (p : Pixel) : Nat :=
  let mx := max p.r (max p.g p.b)
  let mn := min p.r (min p.g p.b)
  if channel == "v" then mx
  else if channel == "s" then (if mx == 0 then 0 else 255 * (mx - mn) / mx)
  else if mx == mn then 0
  else
    let d : Int := (mx : Int) - (mn : Int)
    let raw : Int :=
      if mx == p.r then 30 * ((p.g : Int) - p.b) / d
      else if mx == p.g then 60 + 30 * ((p.b : Int) - p.r) / d
      else 120 + 30 * ((p.r : Int) - p.g) / d
    ((raw % 180 + 180) % 180).toNat

/-- Modelled from the spec: `pcv.rgb2gray_cmyk` is not in the repository;
the CMYK channels are modelled pointwise with the standard formulas. -/
def cmykPix (channel : String) (p : Pixel) : Nat :=
  let mx := max p.r (max p.g p.b)
  if channel == "k" then 255 - mx
  else if mx == 0 then 0
  else if channel == "c" then 255 * (mx - p.r) / mx
  else if channel == "m" then 255 * (mx - p.g) / mx
  else 255 * (mx - p.b) / mx

/-- Pointwise projection of an image through a pixel map; the output
keeps the input's width and height (spec 4.1). -/
def mapPixels (f : Pixel → Nat) (img : Img) : Gray :=
  ⟨img.h, img.w, fun i j => f (img.data i j)⟩

/-- Projection onto a Lab channel (`pcv.rgb2gray_lab`). -/
def rgb2gray_lab (img : Img) (channel : String) : Gray :=
  mapPixels (labPix channel) img

/-- Projection onto an HSV channel (`pcv.rgb2gray_hsv`). -/
def rgb2gray_hsv (img : Img) (channel : String) : Gray :=
  mapPixels (hsvPix channel) img

/-- Projection onto a CMYK channel (`pcv.rgb2gray_cmyk`). -/
def rgb2gray_cmyk (img : Img) (channel : String) : Gray :=
  mapPixels (cmykPix channel) img

/-- Whether every cell of the buffer holds the same intensity. -/
def uniformG (g : Gray) : Bool :=
  (List.range g.h).all fun i =>
    (List.range g.w).all fun j => g.data i j == g.data 0 0

/-- Number of in-range cells with intensity strictly below `t`. -/
def countBelow (g : Gray) (t : Nat) : Nat :=
  (List.range g.h).foldl
    (fun acc i =>
      (List.range g.w).foldl
        (fun a j => a + (if g.data i j < t then 1 else 0)) acc) 0

/-- Sum of the intensities strictly below `t`. -/
def sumBelow (g : Gray) (t : Nat) : Nat :=
  (List.range g.h).foldl
    (fun acc i =>
      (List.range g.w).foldl
        (fun a j => a + (if g.data i j < t then g.data i j else 0)) acc) 0

/-- Number of in-range cells with intensity at least `t`. -/
def countAtLeast (g : Gray) (t : Nat) : Nat :=
  (List.range g.h).foldl
    (fun acc i =>
      (List.range g.w).foldl
        (fun a j => a + (if t ≤ g.data i j then 1 else 0)) acc) 0

/-- Sum of the intensities at least `t`. -/
def sumAtLeast (g : Gray) (t : Nat) : Nat :=
  (List.range g.h).foldl
    (fun acc i =>
      (List.range g.w).foldl
        (fun a j => a + (if t ≤ g.data i j then g.data i j else 0)) acc) 0

/-- Numerator of the between-class variance of the split at `t`:
`(s0*w1 - s1*w0)^2` where `w0,s0` (`w1,s1`) are the count and intensity
sum of the class below (at or above) `t`.  The full between-class
variance is this over `w0*w1` (up to the constant total count). -/
def betweenVarNum (g : Gray) (t : Nat) : Nat :=
  let d : Int := (sumBelow g t : Int) * countAtLeast g t
    - (sumAtLeast g t : Int) * countBelow g t
  (d * d).toNat

/-- Denominator of the between-class variance of the split at `t`. -/
def betweenVarDen (g : Gray) (t : Nat) : Nat :=
  countBelow g t * countAtLeast g t

/-- The between-class variance of the split at `t` as an exact rational
(up to the constant total cell count); a split with an empty class
scores zero. -/
def scoreQ (g : Gray) (t : Nat) : Rat :=
  if betweenVarDen g t = 0 then 0
  else (betweenVarNum g t : Rat) / (betweenVarDen g t : Rat)

/-- Modelled from the spec: `pcv.threshold.otsu` is not in the repository;
the spec (4.2) specifies the classic two-class variance-maximising
threshold.  The candidate thresholds 0..255 are scanned and the one with
the strictly largest exact rational between-class variance is kept; ties
keep the smaller threshold. -/
def otsuT (g : Gray) : Nat :=
  (List.range 256).foldl
    (fun best t => if scoreQ g best < scoreQ g t then t else best) 0

/-- Modelled from the spec: Otsu thresholding with LIGHT_IS_OBJECT
polarity (4.2): cells with intensity at or above the computed threshold
become FOREGROUND; on a uniform buffer the documented policy applies and
every cell is BACKGROUND. -/
def threshold_otsu (g : Gray) : Mask :=
  if uniformG g then ⟨g.h, g.w, fun _ _ => false⟩
  else ⟨g.h, g.w, fun i j => decide (otsuT g ≤ g.data i j)⟩

/-- Whether `(i, j)` indexes a cell of an `h × w` grid. -/
def inBounds (hh ww i j : Nat) : Bool :=
  decide (i < hh) && decide (j < ww)

/-- Whether `(i, j)` lies on the border of an `h × w` grid. -/
def isBorder (hh ww i j : Nat) : Bool :=
  i == 0 || j == 0 || i + 1 == hh || j + 1 == ww

/-- 8-connectivity adjacency of two cells (spec 4.3). -/
def adj8 (i j i' j' : Nat) : Bool :=
  decide (max i i' - min i i' ≤ 1) && decide (max j j' - min j j' ≤ 1)
    && !(i == i' && j == j')

/-- Background cells of the mask that lie on the border: the seed of the
border-reachability computation. -/
def reachSeed (m : Mask) : Nat → Nat → Bool :=
  fun i j => inBounds m.h m.w i j && !m.data i j && isBorder m.h m.w i j

/-- One expansion step of border reachability: a background cell joins
the reachable set when an 8-neighbour is already in it. -/
def reachStep (m : Mask) (s : Nat → Nat → Bool) : Nat → Nat → Bool :=
  fun i j =>
    s i j ||
      (inBounds m.h m.w i j && !m.data i j &&
        (List.range m.h).any fun i' =>
          (List.range m.w).any fun j' => s i' j' && adj8 i' j' i j)

/-- Background cells reachable from the border through background cells
under 8-connectivity, computed by saturating the expansion step (one
iteration per cell suffices). -/
def reachBorder (m : Mask) : Nat → Nat → Bool :=
  (reachStep m)^[m.h * m.w] (reachSeed m)

/-- Modelled from the spec: `pcv.fill_holes` is not in the repository;
the spec (4.3) specifies that background components not touching the
border (holes) are relabelled FOREGROUND and border-reachable background
is left unchanged. -/
def fill_holes (m : Mask) : Mask :=
  ⟨m.h, m.w, fun i j => m.data i j || !reachBorder m i j⟩

/-- The ten recognised channel codes (spec 4.1), grouped as the source's
dispatch groups them. -/
def validChannel (channel : String) : Bool :=
  (["l", "a", "b"] : List String).contains channel
    || (["h", "s", "v"] : List String).contains channel
    || (["c", "m", "y", "k"] : List String).contains channel

/-- Translation of `gaussian_blur` (src/Transformation.py): dispatch on
the channel group, project to grayscale, Otsu-threshold with light
polarity, fill holes; an unrecognised channel raises (here: returns) the
invalid-channel error.  The `except` clause of the source prints and
re-raises, leaving the error unchanged. -/
def gaussian_blur (img : Img) (channel : String := "b") : Except Err Mask :=
  if (["l", "a", "b"] : List String).contains channel then
    Except.ok (fill_holes (threshold_otsu (rgb2gray_lab img channel)))
  else if (["h", "s", "v"] : List String).contains channel then
    Except.ok (fill_holes (threshold_otsu (rgb2gray_hsv img channel)))
  else if (["c", "m", "y", "k"] : List String).contains channel then
    Except.ok (fill_holes (threshold_otsu (rgb2gray_cmyk img channel)))
  else Except.error Err.invalidChannel

/-- The spec's Colorspace Projector (4.1): `project(image, selector)`,
failing with the invalid-channel error on an unrecognised selector. -/
def project (img : Img) (selector : String) : Except Err Gray :=
  if (["l", "a", "b"] : List String).contains selector then
    Except.ok (rgb2gray_lab img selector)
  else if (["h", "s", "v"] : List String).contains selector then
    Except.ok (rgb2gray_hsv img selector)
  else if (["c", "m", "y", "k"] : List String).contains selector then
    Except.ok (rgb2gray_cmyk img selector)
  else Except.error Err.invalidChannel

/-- Modelled from the documented semantics of `pcv.apply_mask` with
`mask_color="white"`: cells where the mask is zero are overwritten with
white, foreground cells pass through unchanged. -/
def apply_mask (img : Img) (m : Mask) : Img :=
  ⟨img.h, img.w, fun i j => if m.data i j then img.data i j else ⟨255, 255, 255⟩⟩

/-- Translation of `mask_objects` (src/Transformation.py). -/
def mask_objects (img : Img) (m : Mask) : Img := apply_mask img m

/-- Modelled from the documented semantics of `cv2.cvtColor` with
`COLOR_BGR2GRAY`: the standard luma combination of the channels. -/
def bgr2grayPix (p : Pixel) : Nat := (299 * p.r + 587 * p.g + 114 * p.b) / 1000

/-- The mask computed inside `remove_black` (src/Transformation.py):
`cv2.threshold(gray_img, 20, 255, cv2.THRESH_BINARY)` sets exactly the
cells whose gray value is strictly above 20. -/
def remove_black_mask (img : Img) : Mask :=
  ⟨img.h, img.w, fun i j => decide (20 < bgr2grayPix (img.data i j))⟩

/-- Translation of `remove_black` (src/Transformation.py): threshold the
BGR-grayscale image at 20 and white out everything below. -/
def remove_black (img : Img) : Img := apply_mask img (remove_black_mask img)

/-- Whether column `j` holds a FOREGROUND cell. -/
def colFG (m : Mask) (j : Nat) : Bool :=
  (List.range m.h).any fun i => m.data i j

/-- Whether row `i` holds a FOREGROUND cell. -/
def rowFG (m : Mask) (i : Nat) : Bool :=
  (List.range m.w).any fun j => m.data i j

/-- Whether the mask holds any FOREGROUND cell. -/
def hasFG (m : Mask) : Bool :=
  (List.range m.h).any fun i => rowFG m i

/-- Largest column index holding a FOREGROUND cell. -/
def maxCol (m : Mask) : Nat :=
  Nat.findGreatest (fun j => colFG m j = true) (m.w - 1)

/-- Smallest column index holding a FOREGROUND cell. -/
def minCol (m : Mask) : Nat :=
  (m.w - 1) - Nat.findGreatest (fun k => colFG m ((m.w - 1) - k) = true) (m.w - 1)

/-- Largest row index holding a FOREGROUND cell. -/
def maxRow (m : Mask) : Nat :=
  Nat.findGreatest (fun i => rowFG m i = true) (m.h - 1)

/-- Smallest row index holding a FOREGROUND cell. -/
def minRow (m : Mask) : Nat :=
  (m.h - 1) - Nat.findGreatest (fun k => rowFG m ((m.h - 1) - k) = true) (m.h - 1)

/-- A rectangle in `cv2.boundingRect` convention: top-left corner
`(x, y)` (column, row) plus width and height in cells. -/
structure BRect where
  x : Nat
  y : Nat
  boxW : Nat
  boxH : Nat

/-- Modelled from the documented semantics of `cv2.boundingRect`: the
up-right bounding rectangle of the nonzero cells, returned as
`(x, y, w, h)` with `x` the smallest column, `y` the smallest row, and
`w`, `h` the column/row extents; an empty mask yields all zeros. -/
def boundingRect (m : Mask) : BRect :=
  if hasFG m then
    ⟨minCol m, minRow m, maxCol m - minCol m + 1, maxRow m - minRow m + 1⟩
  else ⟨0, 0, 0, 0⟩

/-- The data produced by `roi`: the recoloured copy of the image and the
two corner vertices handed to `cv2.rectangle` (the library renders the
border through both vertices). -/
structure RoiOut where
  image : Img
  corner1 : Nat × Nat
  corner2 : Nat × Nat

/-- Translation of `roi` (src/Transformation.py): recolour FOREGROUND
cells of a copy to `(0, 255, 0)`, take `x, y, w, h` from the bounding
rectangle of the mask, and draw the rectangle with corner vertices
`(x, y)` and `(x + w, y + h)`. -/
def roi (img : Img) (m : Mask) : RoiOut :=
  let recoloured : Img :=
    ⟨img.h, img.w, fun i j => if m.data i j then ⟨0, 255, 0⟩ else img.data i j⟩
  let r := boundingRect m
  ⟨recoloured, (r.x, r.y), (r.x + r.boxW, r.y + r.boxH)⟩

/-- The observable outcome of one `process_image` call: the binary mask
the chosen branch computed (its provenance) and the names of the files
written to the output directory.  The pixel contents of the saved
artifacts of the library analysis calls are not modelled. -/
structure ProcOut where
  maskUsed : Option Mask
  outFiles : List String

/-- Translation of `process_image` (src/Transformation.py): dispatch on
the transformation name; every branch except `remove_black` obtains its
mask from `gaussian_blur img` (default channel); `remove_black` computes
its own mask; `analyze_color` writes `color_histogram.png` and returns
early, every other branch writes `{transformation}.png`; an unsupported
name raises (returns) an error. -/
def process_image (img : Img) (transformation : String) : Except Err ProcOut :=
  if transformation == "gaussian_blur" then
    Except.map (fun m => ⟨some m, ["gaussian_blur.png"]⟩) (gaussian_blur img)
  else if transformation == "mask_objects" then
    Except.map (fun m => ⟨some m, ["mask_objects.png"]⟩) (gaussian_blur img)
  else if transformation == "remove_black" then
    Except.ok ⟨some (remove_black_mask img), ["remove_black.png"]⟩
  else if transformation == "roi" then
    Except.map (fun m => ⟨some m, ["roi.png"]⟩) (gaussian_blur img)
  else if transformation == "analyze_object" then
    Except.map (fun m => ⟨some m, ["analyze_object.png"]⟩) (gaussian_blur img)
  else if transformation == "create_pseudolandmarks" then
    Except.map (fun m => ⟨some m, ["create_pseudolandmarks.png"]⟩) (gaussian_blur img)
  else if transformation == "analyze_color" then
    Except.map (fun m => ⟨some m, ["color_histogram.png"]⟩) (gaussian_blur img)
  else Except.error Err.unsupportedTransformation

/-- Whether an `Except` value is a success. -/
def exceptOk {α : Type} (e : Except Err α) : Bool :=
  match e with
  | Except.ok _ => true
  | Except.error _ => false

/-- Translation of the directory loop of `main` (src/Transformation.py):
each listed file is handed to `process_image` in order; `process_image`
re-raises its exceptions and `main` does not catch them, so a failure
ends the loop.  The per-file outcome (decode, processing) is abstracted
as the oracle `step`; the returned list records the files on which
`process_image` was invoked. -/
def processLoop {α : Type} (step : α → Except Err Unit) : List α → List α
  | [] => []
  | f :: fs =>
    match step f with
    | Except.ok _ => f :: processLoop step fs
    | Except.error _ => [f]

/-- Lower-case a string character by character (models `str.lower`). -/
def toLowerStr (s : String) : String := String.mk (s.data.map Char.toLower)

/-- Whether `s` ends with the given string (models `str.endswith`). -/
def endsWithStr (s tail : String) : Bool := tail.data.isSuffixOf s.data

/-- The file filter of `main`:
`file.lower().endswith(("jpg", "jpeg", "png"))`. -/
def isImageFile (f : String) : Bool :=
  endsWithStr (toLowerStr f) "jpg" || endsWithStr (toLowerStr f) "jpeg"
    || endsWithStr (toLowerStr f) "png"

/-- The directory branch of `main`: filter the listing to image files,
then run the processing loop over them. -/
def main_dir (step : String → Except Err Unit) (files : List String) : List String :=
  processLoop step (files.filter isImageFile)

/-- A concrete 1 × 2 test image: two gray pixels of different
brightness; its Lab `b` projection is uniform. -/
def imgEx : Img :=
  ⟨1, 2, fun _ j => if j == 0 then ⟨100, 100, 100⟩ else ⟨200, 200, 200⟩⟩

/-- A concrete 2 × 2 mask whose single FOREGROUND cell is at row 0,
column 0. -/
def maskEx : Mask := ⟨2, 2, fun i j => i == 0 && j == 0⟩

/-- A concrete 2 × 2 image of a single dark colour. -/
def img2Ex : Img := ⟨2, 2, fun _ _ => ⟨10, 10, 10⟩⟩

/-- A concrete bimodal 1 × 2 grayscale buffer with intensities 50 and
200. -/
def grayBimodal : Gray := ⟨1, 2, fun _ j => if j == 0 then 50 else 200⟩

/-- A step oracle that fails on `a.jpg` and succeeds elsewhere. -/
def stepEx (f : String) : Except Err Unit :=
  if f == "a.jpg" then Except.error Err.invalidChannel else Except.ok ()

theorem threshold_otsu_h (g : Gray) : (threshold_otsu g).h = g.h := by
  unfold threshold_otsu
  split <;> rfl

theorem threshold_otsu_w (g : Gray) : (threshold_otsu g).w = g.w := by
  unfold threshold_otsu
  split <;> rfl

theorem foldl_best_le (f : Nat → Rat) :
    ∀ (l : List Nat) (b x : Nat), x ∈ l ∨ x = b →
      f x ≤ f (l.foldl (fun best t => if f best < f t then t else best) b) := by
  intro l
  induction l with
  | nil =>
    intro b x hx
    rcases hx with hx | rfl
    · exact absurd hx (List.not_mem_nil x)
    · exact le_refl _
  | cons t ts ih =>
    intro b x hx
    simp only [List.foldl_cons]
    by_cases hbt : f b < f t
    · rw [if_pos hbt]
      rcases hx with hx | hxb
      · rcases List.mem_cons.mp hx with hxt | hx
        · rw [hxt]
          exact ih t t (Or.inr rfl)
        · exact ih t x (Or.inl hx)
      · rw [hxb]
        exact le_trans (le_of_lt hbt) (ih t t (Or.inr rfl))
    · rw [if_neg hbt]
      rcases hx with hx | hxb
      · rcases List.mem_cons.mp hx with hxt | hx
        · rw [hxt]
          exact le_trans (not_lt.mp hbt) (ih b b (Or.inr rfl))
        · exact ih b x (Or.inl hx)
      · rw [hxb]
        exact ih b b (Or.inr rfl)

theorem otsuT_maximizes (g : Gray) (t : Nat) (ht : t < 256) :
    scoreQ g t ≤ scoreQ g (otsuT g) := by
  unfold otsuT
  exact foldl_best_le (scoreQ g) (List.range 256) 0 t
    (Or.inl (List.mem_range.mpr ht))

theorem scoreQ_bimodal_at_100 : scoreQ grayBimodal 100 = 22500 := by
  have hd : betweenVarDen grayBimodal 100 = 1 := by decide
  have hn : betweenVarNum grayBimodal 100 = 22500 := by decide
  unfold scoreQ
  rw [hd, hn]
  norm_num

theorem otsuT_bimodal_pos : 0 < scoreQ grayBimodal (otsuT grayBimodal) :=
  lt_of_lt_of_le (by rw [scoreQ_bimodal_at_100]; norm_num)
    (otsuT_maximizes grayBimodal 100 (by decide))

/-- C1: for every valid 3-channel image and recognised channel selector,
the pipeline entry point `gaussian_blur` returns exactly the composition
of channel projection, Otsu light thresholding and hole filling; the
threshold step labels exactly the cells at or above the computed
threshold FOREGROUND (outside the documented uniform degenerate case),
the computed threshold maximises the between-class variance over all
candidate thresholds, and the default selector is `"b"`. -/
theorem C1_extract_mask_is_composition :
    (∀ (img : Img) (channel : String), validChannel channel = true →
      gaussian_blur img channel
        = Except.map (fun g => fill_holes (threshold_otsu g)) (project img channel))
    ∧ (∀ g : Gray, uniformG g = false →
        ∀ i j, (threshold_otsu g).data i j = decide (otsuT g ≤ g.data i j))
    ∧ (∀ (g : Gray) (t : Nat), t < 256 → scoreQ g t ≤ scoreQ g (otsuT g))
    ∧ ∀ img : Img, gaussian_blur img = gaussian_blur img "b" := by
  refine ⟨?_, ?_, ?_, ?_⟩
  · intro img channel h
    unfold validChannel at h
    simp at h
    rcases h with ((h | h | h) | h | h | h) | h | h | h | h <;> subst h <;> rfl
  · intro g hg i j
    simp [threshold_otsu, hg]
  · intro g t ht
    exact otsuT_maximizes g t ht
  · intro img
    rfl

theorem C1_witness :
    (validChannel "h" = true ∧
      gaussian_blur imgEx "h"
        = Except.map (fun g => fill_holes (threshold_otsu g)) (project imgEx "h"))
      ∧ (uniformG grayBimodal = false
          ∧ (threshold_otsu grayBimodal).data 0 1
              = decide (otsuT grayBimodal ≤ grayBimodal.data 0 1))
      ∧ ((100 : Nat) < 256
          ∧ scoreQ grayBimodal 100 ≤ scoreQ grayBimodal (otsuT grayBimodal)) :=
  ⟨⟨by decide, C1_extract_mask_is_composition.1 imgEx "h" (by decide)⟩,
    ⟨by decide, C1_extract_mask_is_composition.2.1 grayBimodal (by decide) 0 1⟩,
    ⟨by decide, C1_extract_mask_is_composition.2.2.1 grayBimodal 100 (by decide)⟩⟩

/-- C2: calling `gaussian_blur` with a selector outside the ten
recognised channel codes fails with the invalid-channel error for every
image (no conversion work is done: the result does not depend on the
image), and `project` fails the same way. -/
theorem C2_invalid_channel_error (img : Img) (channel : String)
    (h : validChannel channel = false) :
    gaussian_blur img channel = Except.error Err.invalidChannel
      ∧ project img channel = Except.error Err.invalidChannel := by
  unfold validChannel at h
  simp at h
  obtain ⟨⟨⟨hl, ha, hb⟩, hh, hs, hv2⟩, hc, hm2, hy, hk⟩ := h
  simp [gaussian_blur, project, hl, ha, hb, hh, hs, hv2, hc, hm2, hy, hk]

theorem C2_witness :
    validChannel "z" = false
      ∧ gaussian_blur imgEx "z" = Except.error Err.invalidChannel :=
  ⟨by decide, (C2_invalid_channel_error imgEx "z" (by decide)).1⟩

/-- C3: hole filling never removes foreground: every FOREGROUND cell of
the input mask is still FOREGROUND after `fill_holes`. -/
theorem C3_fill_holes_monotone (m : Mask) (i j : Nat)
    (h : m.data i j = true) : (fill_holes m).data i j = true := by
  simp [fill_holes, h]

theorem C3_witness : (fill_holes maskEx).data 0 0 = true :=
  C3_fill_holes_monotone maskEx 0 0 (by decide)

/-- C5: for every valid image and recognised selector, the mask produced
by the pipeline has exactly the width and height of the input image. -/
theorem C5_mask_dimensions (img : Img) (channel : String) (m : Mask)
    (hv : validChannel channel = true)
    (h : gaussian_blur img channel = Except.ok m) :
    m.h = img.h ∧ m.w = img.w := by
  unfold gaussian_blur at h
  split at h
  · obtain rfl := (Except.ok.inj h).symm
    exact ⟨threshold_otsu_h _, threshold_otsu_w _⟩
  · split at h
    · obtain rfl := (Except.ok.inj h).symm
      exact ⟨threshold_otsu_h _, threshold_otsu_w _⟩
    · split at h
      · obtain rfl := (Except.ok.inj h).symm
        exact ⟨threshold_otsu_h _, threshold_otsu_w _⟩
      · exact Except.noConfusion h

theorem C5_witness :
    (fill_holes (threshold_otsu (rgb2gray_lab imgEx "b"))).h = imgEx.h
      ∧ (fill_holes (threshold_otsu (rgb2gray_lab imgEx "b"))).w = imgEx.w :=
  C5_mask_dimensions imgEx "b" (fill_holes (threshold_otsu (rgb2gray_lab imgEx "b")))
    (by decide) rfl

/-- C8: when the projected grayscale buffer is uniform, thresholding is
total (no crash) and labels every cell BACKGROUND. -/
theorem C8_uniform_threshold_background (img : Img) (selector : String) (g : Gray)
    (hp : project img selector = Except.ok g) (hu : uniformG g = true) :
    ∀ i j, (threshold_otsu g).data i j = false := by
  intro i j
  unfold threshold_otsu
  simp [hu]

theorem C8_witness :
    uniformG (rgb2gray_lab imgEx "b") = true
      ∧ (threshold_otsu (rgb2gray_lab imgEx "b")).data 0 0 = false :=
  ⟨by decide,
    C8_uniform_threshold_background imgEx "b" (rgb2gray_lab imgEx "b") rfl (by decide) 0 0⟩

theorem processLoop_eq {α : Type} (step : α → Except Err Unit) (l : List α) :
    processLoop step l
      = l.takeWhile (fun f => exceptOk (step f))
        ++ (l.dropWhile (fun f => exceptOk (step f))).take 1 := by
  induction l with
  | nil => rfl
  | cons f fs ih =>
    cases hstep : step f with
    | ok u =>
      simp [processLoop, hstep, List.takeWhile_cons, List.dropWhile_cons, exceptOk, ih]
    | error e =>
      simp [processLoop, hstep, List.takeWhile_cons, List.dropWhile_cons, exceptOk]

/-- C7 counterexample: it is not the case that a batch run invokes
processing on every sibling image file regardless of failures: with a
step that fails on `a.jpg`, the file `z.jpg` is never processed. -/
theorem C7_counterexample :
    ¬ (∀ (step : String → Except Err Unit) (files : List String),
        main_dir step files = files.filter isImageFile) := by
  intro hall
  exact absurd (hall stepEx ["a.jpg", "z.jpg"]) (by decide)

/-- C7 amended: in a batch run the files processed are exactly the image
files up to and including the first failing one; a failure on one image
aborts processing of the remaining siblings (`process_image` re-raises
and `main` does not catch inside the loop). -/
theorem C7_failure_aborts_batch (step : String → Except Err Unit) (files : List String) :
    main_dir step files
      = (files.filter isImageFile).takeWhile (fun f => exceptOk (step f))
        ++ ((files.filter isImageFile).dropWhile (fun f => exceptOk (step f))).take 1 := by
  unfold main_dir
  exact processLoop_eq step (files.filter isImageFile)

/-- C6 counterexample: it is false that every mask consumer reachable
from `process_image` obtains its mask from the `gaussian_blur` entry
point: the `remove_black` branch uses its own fixed threshold, and on
the concrete image `imgEx` its mask differs from the pipeline's. -/
theorem C6_counterexample :
    ¬ (∀ (img : Img) (t : String) (o : ProcOut) (m : Mask),
        process_image img t = Except.ok o → o.maskUsed = some m →
        Except.ok m = gaussian_blur img) := by
  intro hall
  have h := hall imgEx "remove_black"
    ⟨some (remove_black_mask imgEx), ["remove_black.png"]⟩
    (remove_black_mask imgEx) rfl rfl
  have h2 : Except.ok (remove_black_mask imgEx)
      = Except.ok (fill_holes (threshold_otsu (rgb2gray_lab imgEx "b"))) := h
  have h3 := congrFun (congrFun (congrArg Mask.data (Except.ok.inj h2)) 0) 0
  exact absurd h3 (by decide)

/-- C6 amended: every branch of `process_image` other than
`remove_black` obtains its mask by calling `gaussian_blur` on the input
image with the default channel; the `remove_black` branch computes its
own mask by a fixed binary threshold at gray value 20. -/
theorem C6_mask_provenance :
    (∀ (img : Img) (t : String) (o : ProcOut) (m : Mask),
        t ≠ "remove_black" →
        process_image img t = Except.ok o → o.maskUsed = some m →
        Except.ok m = gaussian_blur img)
    ∧ ∀ img : Img,
        process_image img "remove_black"
          = Except.ok ⟨some (remove_black_mask img), ["remove_black.png"]⟩ := by
  constructor
  · intro img t o m hne hp hm
    by_cases h1 : t = "gaussian_blur"
    · subst h1
      rw [show process_image img "gaussian_blur"
          = Except.ok ⟨some (fill_holes (threshold_otsu (rgb2gray_lab img "b"))),
              ["gaussian_blur.png"]⟩ from rfl] at hp
      obtain rfl := Except.ok.inj hp
      obtain rfl := Option.some.inj hm
      rfl
    by_cases h2 : t = "mask_objects"
    · subst h2
      rw [show process_image img "mask_objects"
          = Except.ok ⟨some (fill_holes (threshold_otsu (rgb2gray_lab img "b"))),
              ["mask_objects.png"]⟩ from rfl] at hp
      obtain rfl := Except.ok.inj hp
      obtain rfl := Option.some.inj hm
      rfl
    by_cases h3 : t = "roi"
    · subst h3
      rw [show process_image img "roi"
          = Except.ok ⟨some (fill_holes (threshold_otsu (rgb2gray_lab img "b"))),
              ["roi.png"]⟩ from rfl] at hp
      obtain rfl := Except.ok.inj hp
      obtain rfl := Option.some.inj hm
      rfl
    by_cases h4 : t = "analyze_object"
    · subst h4
      rw [show process_image img "analyze_object"
          = Except.ok ⟨some (fill_holes (threshold_otsu (rgb2gray_lab img "b"))),
              ["analyze_object.png"]⟩ from rfl] at hp
      obtain rfl := Except.ok.inj hp
      obtain rfl := Option.some.inj hm
      rfl
    by_cases h5 : t = "create_pseudolandmarks"
    · subst h5
      rw [show process_image img "create_pseudolandmarks"
          = Except.ok ⟨some (fill_holes (threshold_otsu (rgb2gray_lab img "b"))),
              ["create_pseudolandmarks.png"]⟩ from rfl] at hp
      obtain rfl := Except.ok.inj hp
      obtain rfl := Option.some.inj hm
      rfl
    by_cases h6 : t = "analyze_color"
    · subst h6
      rw [show process_image img "analyze_color"
          = Except.ok ⟨some (fill_holes (threshold_otsu (rgb2gray_lab img "b"))),
              ["color_histogram.png"]⟩ from rfl] at hp
      obtain rfl := Except.ok.inj hp
      obtain rfl := Option.some.inj hm
      rfl
    · simp [process_image, beq_iff_eq, h1, h2, h3, h4, h5, h6, hne] at hp
  · intro img
    rfl

theorem C6_witness :
    Except.ok (fill_holes (threshold_otsu (rgb2gray_lab imgEx "b")))
      = gaussian_blur imgEx :=
  C6_mask_provenance.1 imgEx "roi"
    ⟨some (fill_holes (threshold_otsu (rgb2gray_lab imgEx "b"))), ["roi.png"]⟩
    (fill_holes (threshold_otsu (rgb2gray_lab imgEx "b")))
    (by decide) rfl rfl

/-- C10: the `analyze_color` branch of `process_image` writes only
`color_histogram.png` and returns early, never writing the
per-transformation file `analyze_color.png`; every other supported
transformation writes exactly `{transformation}.png`. -/
theorem C10_analyze_color_early_return :
    ∀ img : Img,
      (∃ o : ProcOut, process_image img "analyze_color" = Except.ok o
        ∧ o.outFiles = ["color_histogram.png"]
        ∧ "analyze_color.png" ∉ o.outFiles)
      ∧ ∀ t : String,
          t ∈ (["gaussian_blur", "mask_objects", "remove_black", "roi",
                "analyze_object", "create_pseudolandmarks"] : List String) →
          ∃ o : ProcOut, process_image img t = Except.ok o
            ∧ o.outFiles = [t ++ ".png"] := by
  intro img
  constructor
  · exact ⟨⟨some (fill_holes (threshold_otsu (rgb2gray_lab img "b"))),
      ["color_histogram.png"]⟩, rfl, rfl, by simp⟩
  · intro t ht
    fin_cases ht
    · exact ⟨⟨some (fill_holes (threshold_otsu (rgb2gray_lab img "b"))),
        ["gaussian_blur.png"]⟩, rfl, rfl⟩
    · exact ⟨⟨some (fill_holes (threshold_otsu (rgb2gray_lab img "b"))),
        ["mask_objects.png"]⟩, rfl, rfl⟩
    · exact ⟨⟨some (remove_black_mask img), ["remove_black.png"]⟩, rfl, rfl⟩
    · exact ⟨⟨some (fill_holes (threshold_otsu (rgb2gray_lab img "b"))),
        ["roi.png"]⟩, rfl, rfl⟩
    · exact ⟨⟨some (fill_holes (threshold_otsu (rgb2gray_lab img "b"))),
        ["analyze_object.png"]⟩, rfl, rfl⟩
    · exact ⟨⟨some (fill_holes (threshold_otsu (rgb2gray_lab img "b"))),
        ["create_pseudolandmarks.png"]⟩, rfl, rfl⟩

theorem C10_witness :
    ∃ o : ProcOut, process_image imgEx "roi" = Except.ok o
      ∧ o.outFiles = ["roi" ++ ".png"] :=
  (C10_analyze_color_early_return imgEx).2 "roi" (by simp)

theorem reachStep_extensive (m : Mask) (s : Nat → Nat → Bool) (i j : Nat)
    (h : s i j = true) : reachStep m s i j = true := by
  simp [reachStep, h]

theorem reachStep_iter_extensive (m : Mask) (l : Nat) :
    ∀ (s : Nat → Nat → Bool) (i j : Nat), s i j = true →
      ((reachStep m)^[l] s) i j = true := by
  induction l with
  | zero => intro s i j h; simpa using h
  | succ l ih =>
    intro s i j h
    rw [Function.iterate_succ_apply]
    exact ih _ i j (reachStep_extensive m s i j h)

theorem iter_le_reachBorder (m : Mask) (k : Nat) (hk : k ≤ m.h * m.w) (i j : Nat)
    (h : ((reachStep m)^[k] (reachSeed m)) i j = true) :
    reachBorder m i j = true := by
  unfold reachBorder
  rw [show m.h * m.w = (m.h * m.w - k) + k from (Nat.sub_add_cancel hk).symm,
    Function.iterate_add_apply]
  exact reachStep_iter_extensive m _ _ i j h

theorem reach_iter_fill (m : Mask) :
    ∀ (k : Nat), k ≤ m.h * m.w → ∀ i j,
      ((reachStep m)^[k] (reachSeed m)) i j = true →
      ((reachStep (fill_holes m))^[k] (reachSeed (fill_holes m))) i j = true := by
  intro k
  induction k with
  | zero =>
    intro _ i j h
    simp only [Function.iterate_zero, id_eq] at h ⊢
    have hr : reachBorder m i j = true :=
      iter_le_reachBorder m 0 (Nat.zero_le _) i j h
    simp [reachSeed, fill_holes] at h ⊢
    exact ⟨⟨h.1.1, h.1.2, hr⟩, h.2⟩
  | succ k ih =>
    intro hk i j h
    have hr : reachBorder m i j = true := iter_le_reachBorder m (k + 1) hk i j h
    rw [Function.iterate_succ_apply'] at h ⊢
    simp [reachStep, fill_holes] at h ⊢
    rcases h with h | ⟨⟨hib, hbg⟩, i', hi', j', hj', hS, hadj⟩
    · exact Or.inl (ih (Nat.le_of_succ_le hk) i j h)
    · exact Or.inr ⟨⟨hib, hbg, hr⟩,
        i', hi', j', hj', ih (Nat.le_of_succ_le hk) i' j' hS, hadj⟩

/-- C4: hole filling is idempotent: applying `fill_holes` twice gives
the same mask as applying it once. -/
theorem C4_fill_holes_idempotent (m : Mask) :
    fill_holes (fill_holes m) = fill_holes m := by
  have hdata : ∀ i j,
      (fill_holes (fill_holes m)).data i j = (fill_holes m).data i j := by
    intro i j
    by_cases hF : (fill_holes m).data i j = true
    · show ((fill_holes m).data i j || !reachBorder (fill_holes m) i j)
        = (fill_holes m).data i j
      rw [hF]
      rfl
    · rw [Bool.not_eq_true] at hF
      show ((fill_holes m).data i j || !reachBorder (fill_holes m) i j)
        = (fill_holes m).data i j
      rw [hF, Bool.false_or]
      have hm : m.data i j = false ∧ reachBorder m i j = true := by
        have := hF
        simp [fill_holes] at this
        exact this
      have : ((reachStep (fill_holes m))^[m.h * m.w]
          (reachSeed (fill_holes m))) i j = true :=
        reach_iter_fill m (m.h * m.w) (Nat.le_refl _) i j hm.2
      have hrb : reachBorder (fill_holes m) i j = true := this
      rw [hrb]
      rfl
  show Mask.mk (fill_holes m).h (fill_holes m).w _ = fill_holes m
  have hw : fill_holes m = Mask.mk (fill_holes m).h (fill_holes m).w (fill_holes m).data := rfl
  rw [hw]
  congr 1
  funext i j
  exact hdata i j

theorem colFG_iff (m : Mask) (j : Nat) :
    colFG m j = true ↔ ∃ i, i < m.h ∧ m.data i j = true := by
  simp [colFG]

theorem rowFG_iff (m : Mask) (i : Nat) :
    rowFG m i = true ↔ ∃ j, j < m.w ∧ m.data i j = true := by
  simp [rowFG]

theorem hasFG_iff (m : Mask) :
    hasFG m = true ↔ ∃ i, i < m.h ∧ ∃ j, j < m.w ∧ m.data i j = true := by
  simp [hasFG, rowFG]

theorem le_maxCol (m : Mask) {i j : Nat} (hi : i < m.h) (hj : j < m.w)
    (hd : m.data i j = true) : j ≤ maxCol m :=
  Nat.le_findGreatest (by omega) ((colFG_iff m j).2 ⟨i, hi, hd⟩)

theorem maxCol_attained (m : Mask) {i j : Nat} (hi : i < m.h) (hj : j < m.w)
    (hd : m.data i j = true) : colFG m (maxCol m) = true := by
  unfold maxCol
  exact @Nat.findGreatest_spec j (fun jj => colFG m jj = true)
    (fun jj => instDecidableEqBool _ _) (m.w - 1) (by omega)
    ((colFG_iff m j).2 ⟨i, hi, hd⟩)

theorem minCol_le (m : Mask) {i j : Nat} (hi : i < m.h) (hj : j < m.w)
    (hd : m.data i j = true) : minCol m ≤ j := by
  have hP : colFG m ((m.w - 1) - ((m.w - 1) - j)) = true := by
    rw [Nat.sub_sub_self (by omega : j ≤ m.w - 1)]
    exact (colFG_iff m j).2 ⟨i, hi, hd⟩
  have hk := @Nat.le_findGreatest ((m.w - 1) - j) (fun k => colFG m ((m.w - 1) - k) = true)
    (fun k => instDecidableEqBool _ _) (m.w - 1) (Nat.sub_le (m.w - 1) j) hP
  unfold minCol
  omega

theorem minCol_attained (m : Mask) {i j : Nat} (hi : i < m.h) (hj : j < m.w)
    (hd : m.data i j = true) : colFG m (minCol m) = true := by
  have hP : colFG m ((m.w - 1) - ((m.w - 1) - j)) = true := by
    rw [Nat.sub_sub_self (by omega : j ≤ m.w - 1)]
    exact (colFG_iff m j).2 ⟨i, hi, hd⟩
  unfold minCol
  exact @Nat.findGreatest_spec ((m.w - 1) - j) (fun k => colFG m ((m.w - 1) - k) = true)
    (fun k => instDecidableEqBool _ _) (m.w - 1) (Nat.sub_le (m.w - 1) j) hP

theorem le_maxRow (m : Mask) {i j : Nat} (hi : i < m.h) (hj : j < m.w)
    (hd : m.data i j = true) : i ≤ maxRow m :=
  Nat.le_findGreatest (by omega) ((rowFG_iff m i).2 ⟨j, hj, hd⟩)

theorem maxRow_attained (m : Mask) {i j : Nat} (hi : i < m.h) (hj : j < m.w)
    (hd : m.data i j = true) : rowFG m (maxRow m) = true := by
  unfold maxRow
  exact @Nat.findGreatest_spec i (fun ii => rowFG m ii = true)
    (fun ii => instDecidableEqBool _ _) (m.h - 1) (by omega)
    ((rowFG_iff m i).2 ⟨j, hj, hd⟩)

theorem minRow_le (m : Mask) {i j : Nat} (hi : i < m.h) (hj : j < m.w)
    (hd : m.data i j = true) : minRow m ≤ i := by
  have hP : rowFG m ((m.h - 1) - ((m.h - 1) - i)) = true := by
    rw [Nat.sub_sub_self (by omega : i ≤ m.h - 1)]
    exact (rowFG_iff m i).2 ⟨j, hj, hd⟩
  have hk := @Nat.le_findGreatest ((m.h - 1) - i) (fun k => rowFG m ((m.h - 1) - k) = true)
    (fun k => instDecidableEqBool _ _) (m.h - 1) (Nat.sub_le (m.h - 1) i) hP
  unfold minRow
  omega

theorem minRow_attained (m : Mask) {i j : Nat} (hi : i < m.h) (hj : j < m.w)
    (hd : m.data i j = true) : rowFG m (minRow m) = true := by
  have hP : rowFG m ((m.h - 1) - ((m.h - 1) - i)) = true := by
    rw [Nat.sub_sub_self (by omega : i ≤ m.h - 1)]
    exact (rowFG_iff m i).2 ⟨j, hj, hd⟩
  unfold minRow
  exact @Nat.findGreatest_spec ((m.h - 1) - i) (fun k => rowFG m ((m.h - 1) - k) = true)
    (fun k => instDecidableEqBool _ _) (m.h - 1) (Nat.sub_le (m.h - 1) i) hP

/-- C9 counterexample: the rectangle drawn by `roi` does not bound the
FOREGROUND set exactly: on a 2 × 2 mask whose only FOREGROUND cell is
`(0, 0)`, the second corner vertex handed to the drawing call lies at
column 1, where no FOREGROUND cell exists. -/
theorem C9_counterexample :
    ¬ (∀ (img : Img) (m : Mask), hasFG m = true →
        (∀ i j, i < m.h → j < m.w → m.data i j = true →
          (roi img m).corner1.1 ≤ j ∧ j ≤ (roi img m).corner2.1
            ∧ (roi img m).corner1.2 ≤ i ∧ i ≤ (roi img m).corner2.2)
        ∧ ∃ i j, i < m.h ∧ j < m.w ∧ m.data i j = true
            ∧ j = (roi img m).corner2.1) := by
  intro hall
  obtain ⟨-, i, j, hi, hj, hd, hje⟩ := hall img2Ex maskEx (by decide)
  have hj0 : i = 0 ∧ j = 0 := by
    simpa [maskEx] using hd
  have hc : (roi img2Ex maskEx).corner2.1 = 1 := by decide
  omega

/-- C9 amended: `roi` recolours FOREGROUND cells of a copy of the image
to the highlight colour and draws the rectangle whose first corner is
the minimal (column, row) of the FOREGROUND set and whose second corner
is one past its maximal column and row — i.e. the corners passed are
`(x, y)` and `(x + w, y + h)` of the bounding rectangle, so the drawn
border exceeds the minimal enclosing rectangle by one cell on the right
and bottom. -/
theorem C9_roi_overlay (img : Img) (m : Mask) (hFG : hasFG m = true) :
    (roi img m).corner1 = (minCol m, minRow m)
      ∧ (roi img m).corner2 = (maxCol m + 1, maxRow m + 1)
      ∧ (∀ i j, i < m.h → j < m.w → m.data i j = true →
          minCol m ≤ j ∧ j ≤ maxCol m ∧ minRow m ≤ i ∧ i ≤ maxRow m)
      ∧ colFG m (minCol m) = true ∧ colFG m (maxCol m) = true
      ∧ rowFG m (minRow m) = true ∧ rowFG m (maxRow m) = true
      ∧ ∀ i j, (roi img m).image.data i j
          = if m.data i j then ⟨0, 255, 0⟩ else img.data i j := by
  obtain ⟨i0, hi0, j0, hj0, hd0⟩ := (hasFG_iff m).1 hFG
  have hbr : boundingRect m
      = ⟨minCol m, minRow m, maxCol m - minCol m + 1, maxRow m - minRow m + 1⟩ := by
    unfold boundingRect
    rw [hFG]
    rfl
  have hcle : minCol m ≤ maxCol m :=
    Nat.le_trans (minCol_le m hi0 hj0 hd0) (le_maxCol m hi0 hj0 hd0)
  have hrle : minRow m ≤ maxRow m :=
    Nat.le_trans (minRow_le m hi0 hj0 hd0) (le_maxRow m hi0 hj0 hd0)
  refine ⟨?_, ?_, ?_, ?_, ?_, ?_, ?_, ?_⟩
  · show ((boundingRect m).x, (boundingRect m).y) = _
    rw [hbr]
  · show ((boundingRect m).x + (boundingRect m).boxW,
      (boundingRect m).y + (boundingRect m).boxH) = _
    rw [hbr]
    show (minCol m + (maxCol m - minCol m + 1), minRow m + (maxRow m - minRow m + 1)) = _
    have h1 : minCol m + (maxCol m - minCol m + 1) = maxCol m + 1 := by omega
    have h2 : minRow m + (maxRow m - minRow m + 1) = maxRow m + 1 := by omega
    rw [h1, h2]
  · intro i j hi hj hd
    exact ⟨minCol_le m hi hj hd, le_maxCol m hi hj hd,
      minRow_le m hi hj hd, le_maxRow m hi hj hd⟩
  · exact minCol_attained m hi0 hj0 hd0
  · exact maxCol_attained m hi0 hj0 hd0
  · exact minRow_attained m hi0 hj0 hd0
  · exact maxRow_attained m hi0 hj0 hd0
  · intro i j
    rfl

theorem C9_witness :
    (roi img2Ex maskEx).corner1 = (minCol maskEx, minRow maskEx)
      ∧ (roi img2Ex maskEx).corner2 = (maxCol maskEx + 1, maxRow maskEx + 1) :=
  ⟨(C9_roi_overlay img2Ex maskEx (by decide)).1,
    (C9_roi_overlay img2Ex maskEx (by decide)).2.1⟩

end Leaffliction
